import Mathlib

set_option maxHeartbeats 1000000

/-!
Shallow embedding of the retrieval pipeline in `rag_utils.py` and the chat
loop of `app.py` from khavya-798/Multimodal-RAG-with-GEMINI.

External effects are parameters:
  * the Gemini vision call inside `summarize_image` is a function
    `Image → Option String` (`none` models the caught exception that makes
    `summarize_image` return `None`);
  * the local sentence-transformer `local_model.encode` is a function
    `String → Embedding`;
  * the Gemini call inside `generate_answer` is a function
    `List PromptPart → Option String` (`none` models a raised exception,
    caught at rag_utils.py lines 140-142).

PDF parsing (PyMuPDF) is modelled by handing `extract_pdf_content` the page
list it iterates: each page carries its raw text and the decode outcome of
each embedded image (`some img` when `Image.open` succeeds, `none` when it
raises and the except branch at lines 44-45 skips the image).

FAISS `IndexFlatL2` is modelled as the ordered list of added vectors;
`search` returns the labels of the `k` nearest stored vectors by squared L2
distance in ascending order and, as FAISS documents when fewer than `k`
vectors are stored, pads the label list with `-1`.
-/

namespace RagUtils

/-- A decoded in-memory image (a PIL image object), identified by its payload. -/
structure Image where
  payload : Nat
deriving DecidableEq, Repr

/-- An element of the content store built by `extract_pdf_content`
(rag_utils.py lines 24-47): a stripped page text or a decoded image. -/
inductive ContentItem where
  | text (s : String)
  | image (im : Image)
deriving DecidableEq, Repr

instance : Inhabited ContentItem := ⟨ContentItem.text ""⟩

/-- One page of the uploaded PDF as `extract_pdf_content` iterates it:
`page.get_text("text")` and, for each embedded image, the outcome of
`pdf_document.extract_image` + `Image.open` (`none` when that raises). -/
structure PdfPage where
  text : String
  images : List (Option Image)
deriving DecidableEq, Repr

/-- Python `str.strip()`: drop leading and trailing whitespace characters. -/
def pyStrip (s : String) : String :=
  ⟨((s.data.dropWhile Char.isWhitespace).reverse.dropWhile Char.isWhitespace).reverse⟩

/-- `extract_pdf_content` (rag_utils.py lines 24-47): per page, append the
stripped page text when it is non-empty, then append each embedded image
whose decode succeeded (a failed decode is caught, warned about and skipped). -/
def extract_pdf_content (uploaded_pdf : List PdfPage) : List ContentItem :=
  uploaded_pdf.flatMap (fun page =>
    (let page_text := pyStrip page.text
     if page_text ≠ "" then [ContentItem.text page_text] else [])
    ++ page.images.filterMap (fun base_image => base_image.map ContentItem.image))

/-- An embedding vector produced by the local model (`local_model.encode`). -/
abbrev Embedding := List Int

/-- `get_local_embeddings` (rag_utils.py lines 67-70): embed each text with
the local model, in order. -/
def get_local_embeddings (texts : List String) (local_model : String → Embedding) :
    List Embedding :=
  texts.map local_model

/-- The FAISS `IndexFlatL2` after `index.add(embeddings_np)`: the ordered
list of stored vectors. -/
structure FaissIndex where
  vecs : List Embedding
deriving DecidableEq, Repr

/-- The pair `(index, content_store)` returned by `create_vector_store`. -/
abbrev VectorStore := FaissIndex × List ContentItem

/-- `create_vector_store` (rag_utils.py lines 72-78). -/
def create_vector_store (embeddings : List Embedding) (content_store : List ContentItem) :
    VectorStore :=
  (⟨embeddings⟩, content_store)

/-- `process_files` (rag_utils.py lines 81-106): build the content store,
embed every page text and every image summary that Gemini produced (an item
whose summary comes back `None` is skipped with an error message, lines
93-97), fail with `None` when nothing is embeddable (lines 99-101), and
otherwise pair the index with the original content store. -/
def process_files (summarize_image : Image → Option String)
    (local_model : String → Embedding) (uploaded_pdf : List PdfPage) :
    Option VectorStore :=
  let content_store := extract_pdf_content uploaded_pdf
  let all_texts_to_embed := content_store.filterMap (fun item =>
    match item with
    | ContentItem.text s => some s
    | ContentItem.image im => summarize_image im)
  if all_texts_to_embed.isEmpty then none
  else some (create_vector_store (get_local_embeddings all_texts_to_embed local_model)
    content_store)

/-- Squared L2 distance, the metric of FAISS `IndexFlatL2`. -/
def sqDist (v w : Embedding) : Int :=
  ((v.zip w).map (fun p => (p.1 - p.2) * (p.1 - p.2))).sum

/-- FAISS `IndexFlatL2.search` for one query vector: labels of the `k`
nearest stored vectors by squared L2 distance, nearest first; when fewer
than `k` vectors are stored, the label list is padded to length `k` with
`-1`, as FAISS documents for this case. -/
def FaissIndex.search (idx : FaissIndex) (q : Embedding) (k : Nat) : List Int :=
  let scored := idx.vecs.enum.map (fun p => (sqDist p.2 q, (p.1 : Int)))
  let hits := ((scored.mergeSort (fun a b => decide (a.1 ≤ b.1))).map Prod.snd).take k
  hits ++ List.replicate (k - hits.length) (-1)

/-- Python list subscription `l[i]`: nonnegative subscripts from the front,
negative subscripts from the back, `none` when `IndexError` is raised. -/
def pyGet (l : List α) (i : Int) : Option α :=
  if 0 ≤ i then l[i.toNat]?
  else if (-i).toNat ≤ l.length then l[l.length - (-i).toNat]? else none

/-- The retrieval step of `generate_answer` (rag_utils.py lines 119-120):
keep the indices below the store length, then subscript the content store
with each of them in order; `none` models an uncaught `IndexError`. -/
def lookup (content_store : List ContentItem) (indices : List Int) :
    Option (List ContentItem) :=
  let valid_indices := indices.filter (fun i => decide (i < (content_store.length : Int)))
  valid_indices.mapM (pyGet content_store)

/-- One part of the multi-part Gemini prompt: a string or an image payload. -/
inductive PromptPart where
  | text (s : String)
  | image (im : Image)
deriving DecidableEq, Repr

/-- The fixed system instruction opening the prompt (rag_utils.py line 123). -/
def systemInstruction : String :=
  "You are an expert analyst. Answer the user\x27s question based ONLY on the following context. If the context does not contain the answer, state that you don\x27t know."

/-- The context-opening marker (rag_utils.py line 124). -/
def contextStartMarker : String := "\n--- CONTEXT START ---\n"

/-- How the loop at rag_utils.py lines 126-133 renders one retrieved item:
a text verbatim, an image as its payload between two marker strings. -/
def renderItem : ContentItem → List PromptPart
  | ContentItem.text s => [PromptPart.text s]
  | ContentItem.image im =>
      [PromptPart.text "\n[Image context below]\n", PromptPart.image im,
       PromptPart.text "\n[End of image context]\n"]

/-- The final prompt part (rag_utils.py line 134): the context-closing
marker and the literal user question. -/
def closingPart (user_question : String) : PromptPart :=
  PromptPart.text ("\n--- CONTEXT END ---\n\nQuestion: " ++ user_question ++ "\n\nAnswer:")

/-- The prompt assembly of `generate_answer` (rag_utils.py lines 122-134). -/
def buildPrompt (retrieved_context : List ContentItem) (user_question : String) :
    List PromptPart :=
  [PromptPart.text systemInstruction, PromptPart.text contextStartMarker]
    ++ retrieved_context.flatMap renderItem
    ++ [closingPart user_question]

/-- The fallback answer returned when the Gemini call raises
(rag_utils.py line 142). -/
def fallbackAnswer : String :=
  "Sorry, I encountered an error while generating the answer."

/-- `generate_answer` (rag_utils.py lines 109-142): embed the question,
search the index with `k = 5`, keep and look up the valid indices, assemble
the prompt and call the model, answering with the fixed fallback string
when the model call raises. `none` models an uncaught exception. -/
def generate_answer (call_model : List PromptPart → Option String)
    (encode_question : String → Embedding) (user_question : String)
    (vector_store : VectorStore) : Option String :=
  let (index, content_store) := vector_store
  let indices := index.search (encode_question user_question) 5
  match lookup content_store indices with
  | none => none
  | some retrieved_context =>
      some (match call_model (buildPrompt retrieved_context user_question) with
        | some response => response
        | none => fallbackAnswer)

/-- The session state `app.py` keeps in `st.session_state`: the vector
store and the chat history as (role, content) pairs. -/
structure Session where
  vector_store : VectorStore
  messages : List (String × String)
deriving DecidableEq, Repr

/-- One chat turn (app.py lines 168-183): record the user question, call
`generate_answer` on the session's vector store, record the answer. An
uncaught exception (`none`) ends the turn with the state untouched. -/
def chat_step (call_model : List PromptPart → Option String)
    (encode_question : String → Embedding) (user_question : String)
    (s : Session) : Session :=
  match generate_answer call_model encode_question user_question s.vector_store with
  | some answer =>
      { s with messages := s.messages ++ [("user", user_question), ("assistant", answer)] }
  | none => s

/-- The text selected for embedding from one content item when every image
summary succeeds: a text itself, an image its summary. -/
def contentText (summary : Image → String) : ContentItem → String
  | ContentItem.text s => s
  | ContentItem.image im => summary im

/-- A content item carrying a text payload. -/
def ContentItem.isText : ContentItem → Bool
  | ContentItem.text _ => true
  | ContentItem.image _ => false

/-- The text payload of a content item, if any. -/
def ContentItem.textPayload : ContentItem → Option String
  | ContentItem.text s => some s
  | ContentItem.image _ => none

/-- The image payload of a content item, if any. -/
def ContentItem.imagePayload : ContentItem → Option Image
  | ContentItem.text _ => none
  | ContentItem.image im => some im

/-- The image payload of a prompt part, if any. -/
def PromptPart.imagePayload : PromptPart → Option Image
  | PromptPart.text _ => none
  | PromptPart.image im => some im

theorem mapM_eq_some_map_aux {α β : Type} (f : α → Option β) (g : α → β) :
    ∀ l : List α, (∀ a ∈ l, f a = some (g a)) → l.mapM' f = some (l.map g)
  | [], _ => rfl
  | a :: l, h => by
    have ha : f a = some (g a) := h a (List.mem_cons_self a l)
    have hl := mapM_eq_some_map_aux f g l (fun x hx => h x (List.mem_cons_of_mem a hx))
    simp [ha, hl]

theorem mapM_eq_some_map {α β : Type} (f : α → Option β) (g : α → β)
    (l : List α) (h : ∀ a ∈ l, f a = some (g a)) : l.mapM f = some (l.map g) := by
  rw [← List.mapM'_eq_mapM]
  exact mapM_eq_some_map_aux f g l h

theorem mapM_append_some {α β : Type} (f : α → Option β) {l₁ l₂ : List α}
    {r₁ r₂ : List β} (h₁ : l₁.mapM f = some r₁) (h₂ : l₂.mapM f = some r₂) :
    (l₁ ++ l₂).mapM f = some (r₁ ++ r₂) := by
  rw [List.mapM_append, h₁, h₂]
  rfl

theorem mapM_replicate_some_aux {α β : Type} (f : α → Option β) {a : α} {b : β}
    (h : f a = some b) :
    ∀ m : Nat, (List.replicate m a).mapM' f = some (List.replicate m b)
  | 0 => rfl
  | m + 1 => by
    simp [List.replicate_succ, h, mapM_replicate_some_aux f h m]

theorem mapM_replicate_some {α β : Type} (f : α → Option β) {a : α} {b : β}
    (h : f a = some b) (m : Nat) :
    (List.replicate m a).mapM f = some (List.replicate m b) := by
  rw [← List.mapM'_eq_mapM]
  exact mapM_replicate_some_aux f h m

theorem mapM_isSome_of_forall_aux {α β : Type} (f : α → Option β) :
    ∀ l : List α, (∀ a ∈ l, (f a).isSome) → (l.mapM' f).isSome
  | [], _ => by simp
  | a :: l, h => by
    rcases Option.isSome_iff_exists.mp (h a (List.mem_cons_self a l)) with ⟨b, hb⟩
    have hl := mapM_isSome_of_forall_aux f l (fun x hx => h x (List.mem_cons_of_mem a hx))
    rcases Option.isSome_iff_exists.mp hl with ⟨r, hr⟩
    simp [hb, hr]

theorem mapM_isSome_of_forall {α β : Type} (f : α → Option β) (l : List α)
    (h : ∀ a ∈ l, (f a).isSome) : (l.mapM f).isSome := by
  rw [← List.mapM'_eq_mapM]
  exact mapM_isSome_of_forall_aux f l h

theorem pyGet_nonneg_eq {α : Type} [Inhabited α] (l : List α) (i : Int)
    (h0 : 0 ≤ i) (hlt : i < (l.length : Int)) :
    pyGet l i = some (l.getD i.toNat default) := by
  have hlt2 : i.toNat < l.length := by omega
  unfold pyGet
  rw [if_pos h0, List.getElem?_eq_getElem hlt2]
  simp [List.getD_eq_getElem?_getD, List.getElem?_eq_getElem hlt2]

theorem pyGet_neg_one {α : Type} (l : List α) (h : 0 < l.length) :
    pyGet l (-1) = l.getLast? := by
  unfold pyGet
  rw [if_neg (by norm_num), if_pos (by simpa using h), List.getLast?_eq_getElem? l]
  norm_num

/-- The labels the FAISS search sorts: a permutation of all stored positions. -/
theorem search_core_perm (idx : FaissIndex) (q : Embedding) :
    ((((idx.vecs.enum.map (fun p => (sqDist p.2 q, (p.1 : Int)))).mergeSort
        (fun a b => decide (a.1 ≤ b.1))).map Prod.snd).Perm
      ((List.range idx.vecs.length).map Int.ofNat)) := by
  have h1 := (List.mergeSort_perm
    (idx.vecs.enum.map (fun p => (sqDist p.2 q, (p.1 : Int))))
    (fun a b => decide (a.1 ≤ b.1))).map Prod.snd
  have h3 : (idx.vecs.enum.map (fun p => (sqDist p.2 q, (p.1 : Int)))).map Prod.snd
      = (List.range idx.vecs.length).map Int.ofNat := by
    rw [← List.enum_map_fst idx.vecs, List.map_map, List.map_map]
    rfl
  exact h3 ▸ h1

/-- `search` with `k` at least the number of stored vectors: the result is
some ordering of all stored positions, followed by `-1` padding up to
length `k`. -/
theorem search_split (idx : FaissIndex) (q : Embedding) (k : Nat)
    (h : idx.vecs.length ≤ k) :
    ∃ hits : List Int,
      idx.search q k = hits ++ List.replicate (k - idx.vecs.length) (-1)
        ∧ hits.Perm ((List.range idx.vecs.length).map Int.ofNat)
        ∧ hits.length = idx.vecs.length := by
  have hperm := search_core_perm idx q
  have hlen : (((idx.vecs.enum.map (fun p => (sqDist p.2 q, (p.1 : Int)))).mergeSort
      (fun a b => decide (a.1 ≤ b.1))).map Prod.snd).length = idx.vecs.length := by
    rw [hperm.length_eq, List.length_map, List.length_range]
  refine ⟨((idx.vecs.enum.map (fun p => (sqDist p.2 q, (p.1 : Int)))).mergeSort
      (fun a b => decide (a.1 ≤ b.1))).map Prod.snd, ?_, hperm, hlen⟩
  simp only [FaissIndex.search]
  rw [List.take_of_length_le (le_trans (le_of_eq hlen) h)]
  rw [hlen]

/-- Every label a FAISS search returns is either the padding value `-1` or
a valid stored position. -/
theorem mem_search_cases (idx : FaissIndex) (q : Embedding) (k : Nat) {i : Int}
    (h : i ∈ idx.search q k) :
    i = -1 ∨ (0 ≤ i ∧ i < (idx.vecs.length : Int)) := by
  simp only [FaissIndex.search] at h
  rcases List.mem_append.mp h with h1 | h2
  · right
    have h1b := List.mem_of_mem_take h1
    have hmem := (search_core_perm idx q).mem_iff.mp h1b
    rcases List.mem_map.mp hmem with ⟨m, hm, rfl⟩
    have := List.mem_range.mp hm
    rw [Int.ofNat_eq_coe]
    omega
  · left
    exact List.eq_of_mem_replicate h2

/-- `lookup` never raises when the store is non-empty and every index is
either a valid-sign index or the FAISS padding value `-1`. -/
theorem lookup_isSome (content_store : List ContentItem) (indices : List Int)
    (hpos : 0 < content_store.length)
    (hmem : ∀ i ∈ indices, i = -1 ∨ 0 ≤ i) :
    (lookup content_store indices).isSome := by
  unfold lookup
  refine mapM_isSome_of_forall _ _ (fun i hi => ?_)
  rcases List.mem_filter.mp hi with ⟨hmemi, hlt⟩
  rcases hmem i hmemi with rfl | hnn
  · rw [pyGet_neg_one content_store hpos]
    simp [List.length_pos.mp hpos]
  · rw [pyGet_nonneg_eq content_store i hnn (by simpa using of_decide_eq_true hlt)]
    simp

theorem textPayload_of_images (images : List (Option Image)) :
    (images.filterMap (fun base_image => base_image.map ContentItem.image)).filterMap
      ContentItem.textPayload = [] := by
  rw [List.filterMap_eq_nil_iff]
  intro a ha
  rcases List.mem_filterMap.mp ha with ⟨o, _, ho⟩
  rcases o with _ | im
  · exact Option.noConfusion ho
  · injection ho with h2
    rw [← h2]
    rfl

theorem filterMap_image_filter_isSome (images : List (Option Image)) :
    ((images.filter Option.isSome).filterMap (fun base_image =>
        base_image.map ContentItem.image))
      = images.filterMap (fun base_image => base_image.map ContentItem.image) := by
  induction images with
  | nil => rfl
  | cons o rest ih =>
    rcases o with _ | im
    · simp [List.filter_cons, List.filterMap_cons, ih]
    · simp [List.filter_cons, List.filterMap_cons, ih]

/-- The selector applied to each content item inside `process_files`. -/
theorem filterMap_total_summary (summary : Image → String) (l : List ContentItem) :
    l.filterMap (fun item =>
        match item with
        | ContentItem.text s => some s
        | ContentItem.image im => some (summary im))
      = l.map (contentText summary) := by
  induction l with
  | nil => rfl
  | cons item rest ih =>
    cases item <;> simp [List.filterMap_cons, ih, contentText]

/-- C1 counterexample: one page with the text "t" and a decodable image
whose Gemini summary fails. `process_files` still returns a vector store,
whose index holds one vector while the context store holds two items, so
the claimed invariant fails on an accepted run. -/
theorem process_files_len_mismatch_cex :
    ∃ vs : VectorStore,
      process_files (fun _ => none) (fun _ => [0]) [⟨"t", [some ⟨0⟩]⟩] = some vs
        ∧ vs.1.vecs.length ≠ vs.2.length :=
  ⟨(⟨[[0]]⟩, [ContentItem.text "t", ContentItem.image ⟨0⟩]), by decide, by decide⟩

/-- C1 (amended): on every `process_files` success in which the summarizer
succeeded on every image, the index and the context store have equal
length, the vector sequence is the embedding of each context item's
selected text in order, and each position holding the original image holds
the embedding of that image's generated summary. -/
theorem process_files_aligned (summary : Image → String)
    (local_model : String → Embedding) (uploaded_pdf : List PdfPage)
    (vs : VectorStore)
    (h : process_files (fun im => some (summary im)) local_model uploaded_pdf = some vs) :
    vs.1.vecs.length = vs.2.length
      ∧ vs.1.vecs = vs.2.map (fun item => local_model (contentText summary item))
      ∧ ∀ (i : Nat) (im : Image), vs.2[i]? = some (ContentItem.image im) →
          vs.1.vecs[i]? = some (local_model (summary im)) := by
  simp only [process_files, filterMap_total_summary summary] at h
  split at h
  · exact absurd h (by simp)
  · simp only [create_vector_store, get_local_embeddings, Option.some.injEq] at h
    subst h
    refine ⟨by simp, by rw [List.map_map]; rfl, fun i im him => ?_⟩
    simp only [List.getElem?_map] at him ⊢
    rcases hx : (extract_pdf_content uploaded_pdf)[i]? with _ | item
    · rw [hx] at him
      exact Option.noConfusion him
    · rw [hx] at him
      injection him with h2
      rw [h2]
      rfl

/-- C1 witness: a concrete success of `process_files` with a total
summarizer, at which the amended claim is instantiated. -/
theorem process_files_aligned_witness :
    (process_files (fun _ => some "chart summary") (fun _ => ([0] : Embedding))
        [⟨"t", [some ⟨0⟩]⟩]
      = some ((⟨[[0], [0]]⟩ : FaissIndex),
          [ContentItem.text "t", ContentItem.image ⟨0⟩]))
    ∧ (((⟨[[0], [0]]⟩ : FaissIndex),
          [ContentItem.text "t", ContentItem.image ⟨0⟩]).1.vecs.length
        = ((⟨[[0], [0]]⟩ : FaissIndex),
            [ContentItem.text "t", ContentItem.image ⟨0⟩]).2.length
      ∧ ((⟨[[0], [0]]⟩ : FaissIndex),
          [ContentItem.text "t", ContentItem.image ⟨0⟩]).1.vecs
        = ((⟨[[0], [0]]⟩ : FaissIndex),
            [ContentItem.text "t", ContentItem.image ⟨0⟩]).2.map
            (fun item => (fun _ => ([0] : Embedding))
              (contentText (fun _ => "chart summary") item))
      ∧ ∀ (i : Nat) (im : Image),
          ((⟨[[0], [0]]⟩ : FaissIndex),
            [ContentItem.text "t", ContentItem.image ⟨0⟩]).2[i]?
              = some (ContentItem.image im) →
          ((⟨[[0], [0]]⟩ : FaissIndex),
            [ContentItem.text "t", ContentItem.image ⟨0⟩]).1.vecs[i]?
              = some ((fun _ => ([0] : Embedding)) ("chart summary"))) :=
  ⟨by decide,
    process_files_aligned (fun _ => "chart summary") (fun _ => [0])
      [⟨"t", [some ⟨0⟩]⟩]
      ((⟨[[0], [0]]⟩ : FaissIndex), [ContentItem.text "t", ContentItem.image ⟨0⟩])
      (by decide)⟩

/-- C2 (evaluation at the claimed input): `process_files` takes only the
uploaded PDF. On a PDF whose first page carries the text "Revenue grew 20%"
and the chart image and whose second page is blank, it returns a store
whose context store is exactly the text followed by the original image, of
length 2, the blank page dropped. The claimed two-argument entry point is
what `app.py` calls, but it does not exist in `rag_utils.py`. -/
theorem process_files_revenue_pages_eval :
    process_files (fun _ => some "chart summary") (fun _ => [0])
        [⟨"Revenue grew 20%", [some ⟨7⟩]⟩, ⟨"", []⟩]
      = some (⟨[[0], [0]]⟩,
          [ContentItem.text "Revenue grew 20%", ContentItem.image ⟨7⟩])
    ∧ [ContentItem.text "Revenue grew 20%", ContentItem.image ⟨7⟩].length = 2 := by
  constructor
  · decide
  · rfl

/-- C3 counterexample: the summarizer fails on the only image, yet
`process_files` returns a vector store (text-only content embedded, the
image skipped) instead of the claimed failure. -/
theorem process_files_summary_failure_proceeds_cex :
    process_files (fun _ => none) (fun _ => [0]) [⟨"t", [some ⟨0⟩]⟩]
      = some (⟨[[0]]⟩, [ContentItem.text "t", ContentItem.image ⟨0⟩]) := by
  decide

/-- C3 (amended): a failed image summarization does not abort
`process_files`; the failed image is skipped, and `process_files` fails
precisely when nothing is embeddable at all — no page text and no
successfully summarized image. -/
theorem process_files_none_iff_no_embeddable (summarize_image : Image → Option String)
    (local_model : String → Embedding) (uploaded_pdf : List PdfPage) :
    process_files summarize_image local_model uploaded_pdf = none
      ↔ (extract_pdf_content uploaded_pdf).filterMap (fun item =>
          match item with
          | ContentItem.text s => some s
          | ContentItem.image im => summarize_image im) = [] := by
  simp only [process_files]
  split
  next h1 => exact iff_of_true rfl (List.isEmpty_iff.mp h1)
  next h1 =>
    refine iff_of_false (by simp) (fun hc => h1 ?_)
    rw [hc]
    rfl

/-- C7 counterexample: a page with text "a" and one decodable image. The
extractor output contains the image, so it does not consist only of
per-page text strings. -/
theorem extract_contains_image_cex :
    extract_pdf_content [⟨"a", [some ⟨0⟩]⟩]
        = [ContentItem.text "a", ContentItem.image ⟨0⟩]
      ∧ ((extract_pdf_content [⟨"a", [some ⟨0⟩]⟩]).all ContentItem.isText) = false := by
  decide

/-- C7 (amended): the text items of the extractor output are exactly the
non-empty stripped per-page texts, in page order; pages whose stripped text
is empty contribute no text. The output additionally interleaves the
decoded page images. -/
theorem extract_texts_trimmed_ordered (uploaded_pdf : List PdfPage) :
    (extract_pdf_content uploaded_pdf).filterMap ContentItem.textPayload
      = uploaded_pdf.filterMap (fun page =>
          let page_text := pyStrip page.text
          if page_text = "" then none else some page_text) := by
  induction uploaded_pdf with
  | nil => rfl
  | cons page rest ih =>
    simp only [extract_pdf_content, List.flatMap_cons, List.filterMap_append] at ih ⊢
    rw [ih, List.filterMap_cons]
    by_cases hempty : pyStrip page.text = ""
    · simp [hempty, textPayload_of_images page.images]
    · simp [hempty, textPayload_of_images page.images, ContentItem.textPayload]

/-- C8 counterexample: the only image fails to decode; `process_files`
returns a vector store built from the page text instead of the claimed
failure. -/
theorem process_files_decode_failure_proceeds_cex :
    process_files (fun _ => some "chart summary") (fun _ => [0]) [⟨"t", [none]⟩]
      = some (⟨[[0]]⟩, [ContentItem.text "t"]) := by
  decide

/-- C8 (amended): an image whose decode fails is skipped with a warning and
has no effect on the result: `process_files` behaves exactly as if the
undecodable images were absent, so a decode failure alone never produces a
failure, and on the failure path (`none`) nothing partial is returned. -/
theorem process_files_ignores_undecodable (summarize_image : Image → Option String)
    (local_model : String → Embedding) (uploaded_pdf : List PdfPage) :
    process_files summarize_image local_model
        (uploaded_pdf.map (fun page => ⟨page.text, page.images.filter Option.isSome⟩))
      = process_files summarize_image local_model uploaded_pdf := by
  have hx : extract_pdf_content
      (uploaded_pdf.map (fun page => ⟨page.text, page.images.filter Option.isSome⟩))
      = extract_pdf_content uploaded_pdf := by
    induction uploaded_pdf with
    | nil => rfl
    | cons page rest ih =>
      simp only [List.map_cons, extract_pdf_content, List.flatMap_cons] at ih ⊢
      rw [ih, filterMap_image_filter_isSome page.images]
  simp only [process_files, hx]

theorem mem_flatMap_render (t : String) :
    ∀ l : List ContentItem, ContentItem.text t ∈ l →
      PromptPart.text t ∈ l.flatMap renderItem
  | [], ht => absurd ht (by simp)
  | item :: rest, ht => by
    rw [List.flatMap_cons]
    rcases List.mem_cons.mp ht with h | hmem
    · exact List.mem_append_left _ (by rw [← h]; simp [renderItem])
    · exact List.mem_append_right _ (mem_flatMap_render t rest hmem)

/-- C4 counterexample: an index holding one vector, searched with `k = 5`,
returns the stored index followed by four `-1` padding entries — not just
the stored index, and not without padding. -/
theorem search_pads_cex :
    FaissIndex.search ⟨[[0]]⟩ [0] 5 = [0, -1, -1, -1, -1]
      ∧ FaissIndex.search ⟨[[0]]⟩ [0] 5 ≠ [0]
      ∧ (-1) ∈ FaissIndex.search ⟨[[0]]⟩ [0] 5 := by
  obtain ⟨hits, heq, hperm, hlen⟩ := search_split ⟨[[0]]⟩ [0] 5 (by decide)
  have hr : ((List.range (FaissIndex.mk [[0]]).vecs.length).map Int.ofNat)
      = [(0 : Int)] := rfl
  rw [hr] at hperm
  have hhits : hits = [(0 : Int)] := List.perm_singleton.mp hperm
  subst hhits
  have heq2 : FaissIndex.search ⟨[[0]]⟩ [0] 5 = [0, -1, -1, -1, -1] := by
    rw [heq]
    rfl
  exact ⟨heq2, by rw [heq2]; decide, by rw [heq2]; decide⟩

/-- C4 (amended): for `k` at least the number `n` of stored vectors,
`search` returns a length-`k` list: first the `n` stored positions in some
order, each a valid position below `n` and each exactly once, then `k - n`
padding entries of `-1`; there is no error, but the claimed absence of
padding fails, and the downstream retrieval can repeat the last context
item. -/
theorem search_all_hits_then_padding (idx : FaissIndex) (q : Embedding) (k : Nat)
    (h : idx.vecs.length ≤ k) :
    ∃ hits : List Int,
      idx.search q k = hits ++ List.replicate (k - idx.vecs.length) (-1)
        ∧ hits.Perm ((List.range idx.vecs.length).map Int.ofNat)
        ∧ hits.length = idx.vecs.length
        ∧ (idx.search q k).length = k
        ∧ ∀ i ∈ hits, 0 ≤ i ∧ i < (idx.vecs.length : Int) := by
  obtain ⟨hits, heq, hperm, hlen⟩ := search_split idx q k h
  refine ⟨hits, heq, hperm, hlen, ?_, ?_⟩
  · rw [heq, List.length_append, List.length_replicate, hlen]
    omega
  · intro i hi
    have hmi := hperm.mem_iff.mp hi
    rcases List.mem_map.mp hmi with ⟨m, hm, rfl⟩
    have := List.mem_range.mp hm
    rw [Int.ofNat_eq_coe]
    omega

/-- C4 witness: the amended claim instantiated at a one-vector index with
`k = 5`. -/
theorem search_all_hits_then_padding_witness :
    ((FaissIndex.mk [[0]]).vecs.length ≤ 5)
    ∧ (∃ hits : List Int,
        FaissIndex.search (FaissIndex.mk [[0]]) [0] 5
            = hits ++ List.replicate (5 - (FaissIndex.mk [[0]]).vecs.length) (-1)
          ∧ hits.Perm ((List.range (FaissIndex.mk [[0]]).vecs.length).map Int.ofNat)
          ∧ hits.length = (FaissIndex.mk [[0]]).vecs.length
          ∧ (FaissIndex.search (FaissIndex.mk [[0]]) [0] 5).length = 5
          ∧ ∀ i ∈ hits, 0 ≤ i ∧ i < ((FaissIndex.mk [[0]]).vecs.length : Int)) :=
  ⟨by decide, search_all_hits_then_padding (FaissIndex.mk [[0]]) [0] 5 (by decide)⟩

/-- C5: with `0 < n < 5` stored vectors and an aligned content store, the
FAISS result carries `5 - n` padding entries `-1`, the validity filter of
`generate_answer` keeps them all (it drops nothing), the Python lookup
`content_store[-1]` resolves to the last context item, and the retrieved
context handed to the prompt is the `n` genuine hits followed by `5 - n`
copies of that last item. -/
theorem search_padding_duplicates_last (idx : FaissIndex)
    (content_store : List ContentItem) (qv : Embedding)
    (hlen : content_store.length = idx.vecs.length)
    (h1 : 0 < idx.vecs.length) (h5 : idx.vecs.length < 5) :
    ∃ (hits : List Int) (hitItems : List ContentItem) (lastItem : ContentItem),
      idx.search qv 5 = hits ++ List.replicate (5 - idx.vecs.length) (-1)
        ∧ 0 < 5 - idx.vecs.length
        ∧ (idx.search qv 5).filter (fun i => decide (i < (content_store.length : Int)))
            = idx.search qv 5
        ∧ content_store.getLast? = some lastItem
        ∧ pyGet content_store (-1) = some lastItem
        ∧ lookup content_store (idx.search qv 5)
            = some (hitItems ++ List.replicate (5 - idx.vecs.length) lastItem)
        ∧ hitItems.length = idx.vecs.length := by
  obtain ⟨hits, heq, hperm, hlenh⟩ := search_split idx qv 5 (le_of_lt h5)
  have hpos : 0 < content_store.length := hlen ▸ h1
  have hne : content_store ≠ [] := List.length_pos.mp hpos
  have hlast : content_store.getLast? = some (content_store.getLast hne) :=
    List.getLast?_eq_getLast content_store hne
  have hpy : pyGet content_store (-1) = some (content_store.getLast hne) := by
    rw [pyGet_neg_one content_store hpos, hlast]
  have hmemhits : ∀ i ∈ hits, 0 ≤ i ∧ i < (content_store.length : Int) := by
    intro i hi
    have hmi := hperm.mem_iff.mp hi
    rcases List.mem_map.mp hmi with ⟨m, hm, rfl⟩
    have := List.mem_range.mp hm
    rw [Int.ofNat_eq_coe]
    omega
  have hfilter : (idx.search qv 5).filter
      (fun i => decide (i < (content_store.length : Int))) = idx.search qv 5 := by
    rw [List.filter_eq_self]
    intro i hi
    rcases mem_search_cases idx qv 5 hi with rfl | ⟨h0, hlt⟩
    · exact decide_eq_true (by omega)
    · exact decide_eq_true (by omega)
  have hmapM1 : hits.mapM (pyGet content_store)
      = some (hits.map (fun i => content_store.getD i.toNat default)) := by
    refine mapM_eq_some_map _ _ hits (fun i hi => ?_)
    obtain ⟨h0, hlt⟩ := hmemhits i hi
    exact pyGet_nonneg_eq content_store i h0 hlt
  have hmapM2 : (List.replicate (5 - idx.vecs.length) (-1 : Int)).mapM
      (pyGet content_store)
      = some (List.replicate (5 - idx.vecs.length) (content_store.getLast hne)) :=
    mapM_replicate_some _ hpy _
  refine ⟨hits, hits.map (fun i => content_store.getD i.toNat default),
    content_store.getLast hne, heq, by omega, hfilter, hlast, hpy, ?_, ?_⟩
  · simp only [lookup]
    rw [hfilter, heq]
    exact mapM_append_some _ hmapM1 hmapM2
  · rw [List.length_map, hlenh]

/-- C5 witness: a concrete two-vector index with a length-2 content store,
at which the theorem is instantiated. -/
theorem search_padding_duplicates_last_witness :
    (([ContentItem.text "a", ContentItem.text "b"] : List ContentItem).length
        = (FaissIndex.mk [[0], [1]]).vecs.length
      ∧ 0 < (FaissIndex.mk [[0], [1]]).vecs.length
      ∧ (FaissIndex.mk [[0], [1]]).vecs.length < 5)
    ∧ (∃ (hits : List Int) (hitItems : List ContentItem) (lastItem : ContentItem),
        FaissIndex.search (FaissIndex.mk [[0], [1]]) [0] 5
            = hits ++ List.replicate (5 - (FaissIndex.mk [[0], [1]]).vecs.length) (-1)
          ∧ 0 < 5 - (FaissIndex.mk [[0], [1]]).vecs.length
          ∧ (FaissIndex.search (FaissIndex.mk [[0], [1]]) [0] 5).filter
              (fun i => decide (i <
                (([ContentItem.text "a", ContentItem.text "b"] : List ContentItem).length : Int)))
              = FaissIndex.search (FaissIndex.mk [[0], [1]]) [0] 5
          ∧ ([ContentItem.text "a", ContentItem.text "b"] : List ContentItem).getLast?
              = some lastItem
          ∧ pyGet ([ContentItem.text "a", ContentItem.text "b"] : List ContentItem) (-1)
              = some lastItem
          ∧ lookup [ContentItem.text "a", ContentItem.text "b"]
              (FaissIndex.search (FaissIndex.mk [[0], [1]]) [0] 5)
              = some (hitItems
                  ++ List.replicate (5 - (FaissIndex.mk [[0], [1]]).vecs.length) lastItem)
          ∧ hitItems.length = (FaissIndex.mk [[0], [1]]).vecs.length) :=
  ⟨⟨by decide, by decide, by decide⟩,
    search_padding_duplicates_last (FaissIndex.mk [[0], [1]])
      [ContentItem.text "a", ContentItem.text "b"] [0]
      (by decide) (by decide) (by decide)⟩

/-- C6 counterexample: a genuine search output over a one-vector index,
`[0, -1, -1, -1, -1]`, looked up in the aligned one-item store. Under the
claim, every index would be mapped to its own context item with the
out-of-range ones dropped, giving the single item once; the code instead
keeps each `-1` (it passes the `i < len` filter) and resolves it by Python
negative indexing to the last item, returning that item five times. -/
theorem lookup_neg_one_not_dropped_cex :
    FaissIndex.search (FaissIndex.mk [[0]]) [0] 5 = [0, -1, -1, -1, -1]
      ∧ lookup [ContentItem.text "a"] (FaissIndex.search (FaissIndex.mk [[0]]) [0] 5)
          = some [ContentItem.text "a", ContentItem.text "a", ContentItem.text "a",
              ContentItem.text "a", ContentItem.text "a"]
      ∧ lookup [ContentItem.text "a"] (FaissIndex.search (FaissIndex.mk [[0]]) [0] 5)
          ≠ some [ContentItem.text "a"] := by
  have hs : FaissIndex.search (FaissIndex.mk [[0]]) [0] 5 = [0, -1, -1, -1, -1] := by
    obtain ⟨hits, heq, hperm, hlen⟩ := search_split (FaissIndex.mk [[0]]) [0] 5 (by decide)
    have hr : ((List.range (FaissIndex.mk [[0]]).vecs.length).map Int.ofNat)
        = [(0 : Int)] := rfl
    rw [hr] at hperm
    have hhits : hits = [(0 : Int)] := List.perm_singleton.mp hperm
    subst hhits
    rw [heq]
    rfl
  refine ⟨hs, ?_, ?_⟩
  · rw [hs]
    decide
  · rw [hs]
    decide

/-- C6 (amended): on every index list a search can produce (entries are
`-1` or nonnegative) over a non-empty store, the lookup returns without
error and in the given order, silently drops every index at or beyond the
store length, yields at most as many items as indices, and maps each
nonnegative in-range index to its own context item — but each `-1` padding
entry is kept by the filter and resolves to the last context item, not to a
position of its own. -/
theorem lookup_search_indices (content_store : List ContentItem)
    (indices : List Int) (hpos : 0 < content_store.length)
    (hmem : ∀ i ∈ indices, i = -1 ∨ 0 ≤ i) :
    ∃ r : List ContentItem,
      lookup content_store indices = some r
        ∧ r.length ≤ indices.length
        ∧ r = (indices.filter (fun i => decide (i < (content_store.length : Int)))).map
            (fun i => if 0 ≤ i then content_store.getD i.toNat default
              else content_store.getD (content_store.length - 1) default)
        ∧ ∀ i ∈ indices, (content_store.length : Int) ≤ i →
            i ∉ indices.filter (fun i => decide (i < (content_store.length : Int))) := by
  have hlast : pyGet content_store (-1)
      = some (content_store.getD (content_store.length - 1) default) := by
    rw [pyGet_neg_one content_store hpos, List.getLast?_eq_getElem? content_store,
      List.getElem?_eq_getElem (by omega : content_store.length - 1 < content_store.length)]
    simp [List.getD_eq_getElem?_getD,
      List.getElem?_eq_getElem (by omega : content_store.length - 1 < content_store.length)]
  have hmapM : (indices.filter (fun i => decide (i < (content_store.length : Int)))).mapM
      (pyGet content_store)
      = some ((indices.filter (fun i => decide (i < (content_store.length : Int)))).map
          (fun i => if 0 ≤ i then content_store.getD i.toNat default
            else content_store.getD (content_store.length - 1) default)) := by
    refine mapM_eq_some_map _ _ _ (fun i hi => ?_)
    rcases List.mem_filter.mp hi with ⟨hmi, hlt⟩
    rcases hmem i hmi with rfl | hnn
    · rw [if_neg (by norm_num)]
      exact hlast
    · rw [if_pos hnn]
      exact pyGet_nonneg_eq content_store i hnn (of_decide_eq_true hlt)
  refine ⟨_, by simp only [lookup]; exact hmapM, ?_, rfl, ?_⟩
  · rw [List.length_map]
    exact List.length_filter_le _ _
  · intro i hi hge hmemf
    rcases List.mem_filter.mp hmemf with ⟨_, hlt⟩
    have := of_decide_eq_true hlt
    omega

/-- C6 witness: a two-item store with the index list [0, 7, -1]: the
out-of-range 7 is dropped, 0 maps to its own item, and the padding entry
-1 is kept and resolves to the last item. -/
theorem lookup_search_indices_witness :
    (0 < ([ContentItem.text "a", ContentItem.text "b"] : List ContentItem).length
      ∧ ∀ i ∈ ([0, 7, -1] : List Int), i = -1 ∨ 0 ≤ i)
    ∧ (∃ r : List ContentItem,
        lookup [ContentItem.text "a", ContentItem.text "b"] [0, 7, -1] = some r
          ∧ r.length ≤ ([0, 7, -1] : List Int).length
          ∧ r = (([0, 7, -1] : List Int).filter
              (fun i => decide (i <
                (([ContentItem.text "a", ContentItem.text "b"] : List ContentItem).length : Int)))).map
              (fun i => if 0 ≤ i then
                  ([ContentItem.text "a",
                    ContentItem.text "b"] : List ContentItem).getD i.toNat default
                else ([ContentItem.text "a",
                    ContentItem.text "b"] : List ContentItem).getD
                    (([ContentItem.text "a",
                      ContentItem.text "b"] : List ContentItem).length - 1) default)
          ∧ ∀ i ∈ ([0, 7, -1] : List Int),
              ((([ContentItem.text "a", ContentItem.text "b"] : List ContentItem).length : Int) ≤ i →
                i ∉ ([0, 7, -1] : List Int).filter
                  (fun i => decide (i <
                    (([ContentItem.text "a", ContentItem.text "b"] : List ContentItem).length : Int))))) :=
  ⟨⟨by decide, by decide⟩,
    lookup_search_indices [ContentItem.text "a", ContentItem.text "b"] [0, 7, -1]
      (by decide) (by decide)⟩

/-- C9: when the Gemini answer call raises, the chat turn records the fixed
fallback string as the assistant message and the session's vector store is
unchanged, so the interaction can continue. -/
theorem chat_step_model_failure_fallback (encode_question : String → Embedding)
    (user_question : String) (s : Session)
    (hpos : 0 < s.vector_store.2.length) :
    (chat_step (fun _ => none) encode_question user_question s).vector_store
        = s.vector_store
      ∧ (chat_step (fun _ => none) encode_question user_question s).messages
        = s.messages ++ [("user", user_question), ("assistant", fallbackAnswer)] := by
  obtain ⟨⟨index, content_store⟩, messages⟩ := s
  have hmem : ∀ i ∈ index.search (encode_question user_question) 5, i = -1 ∨ 0 ≤ i :=
    fun i hi => (mem_search_cases index (encode_question user_question) 5 hi).imp id And.left
  have hsome := lookup_isSome content_store
    (index.search (encode_question user_question) 5) hpos hmem
  obtain ⟨r, hr⟩ := Option.isSome_iff_exists.mp hsome
  simp only [chat_step, generate_answer]
  rw [hr]
  simp

/-- C9 witness: a concrete one-item session, at which the theorem is
instantiated. -/
theorem chat_step_model_failure_fallback_witness :
    (0 < (((FaissIndex.mk [[0]], [ContentItem.text "a"]) : VectorStore)).2.length)
    ∧ ((chat_step (fun _ => none) (fun _ => [0]) "q"
          ⟨(FaissIndex.mk [[0]], [ContentItem.text "a"]), []⟩).vector_store
        = (FaissIndex.mk [[0]], [ContentItem.text "a"])
      ∧ (chat_step (fun _ => none) (fun _ => [0]) "q"
          ⟨(FaissIndex.mk [[0]], [ContentItem.text "a"]), []⟩).messages
        = [] ++ [("user", "q"), ("assistant", fallbackAnswer)]) :=
  ⟨by decide,
    chat_step_model_failure_fallback (fun _ => [0]) "q"
      ⟨(FaissIndex.mk [[0]], [ContentItem.text "a"]), []⟩ (by decide)⟩

/-- C10: the assembled prompt is the fixed constraining system instruction
first, then the context-opening marker, then each retrieved item in
retrieval order — texts verbatim, images as the actual image payload inside
marker strings — and finally a closing part carrying the literal user
question. -/
theorem buildPrompt_structure (retrieved_context : List ContentItem)
    (user_question : String) :
    ∃ ctx : List PromptPart,
      buildPrompt retrieved_context user_question
          = PromptPart.text systemInstruction :: PromptPart.text contextStartMarker
            :: (ctx ++ [closingPart user_question])
        ∧ ctx = retrieved_context.flatMap renderItem
        ∧ ctx.filterMap PromptPart.imagePayload
            = retrieved_context.filterMap ContentItem.imagePayload
        ∧ (∀ t, ContentItem.text t ∈ retrieved_context → PromptPart.text t ∈ ctx)
        ∧ closingPart user_question
            = PromptPart.text ("\n--- CONTEXT END ---\n\nQuestion: "
                ++ user_question ++ "\n\nAnswer:") := by
  refine ⟨retrieved_context.flatMap renderItem, rfl, rfl, ?_,
    fun t ht => mem_flatMap_render t retrieved_context ht, rfl⟩
  induction retrieved_context with
  | nil => rfl
  | cons item rest ih =>
    rw [List.flatMap_cons, List.filterMap_append, ih, List.filterMap_cons]
    cases item <;>
      simp [renderItem, ContentItem.imagePayload, PromptPart.imagePayload]

end RagUtils
